/-
Spec2Proof.lean — a verification development for the lighter-bot trade
ingestion, deduplication, cooldown-gated notification and aggregation engine.
The Python sources are shallowly embedded as executable Lean definitions;
timestamps and USD amounts are rationals, fallible code returns Except/Option,
and the binary64 floating-point arithmetic of the report path is modelled
exactly over the rationals.
-/
import Mathlib

namespace LighterBot

/-! ## Poll-variant data model (`lighter_bot/domain/models.py`) -/

/-- Trade direction: the pydantic field `direction: Literal["Buy", "Sell"]`. -/
inductive Dir where
  | buy
  | sell
deriving DecidableEq, Repr

/-- `lighter_bot.domain.models.Trade`: event timestamp `ts` (seconds),
`direction`, and `usd_size` (a Python `Decimal`, modelled as an exact
rational; amounts in range never hit the 28-digit context limit). -/
structure Trade where
  ts : ℚ
  direction : Dir
  usd_size : ℚ
deriving DecidableEq, Repr

/-- Python `sorted(xs, key=k)`: the stable sort by the key `k`.
`List.insertionSort` with the relation `k a ≤ k b` is stable and sorts by
`k`, which determines the same (unique) stable ordering. -/
def pySortBy {α : Type _} {κ : Type _} [LinearOrder κ] (k : α → κ)
    (l : List α) : List α :=
  l.insertionSort (fun a b => k a ≤ k b)

/-- The dedup predicate inside `TradeMonitorService.run_once`
(`trade_monitor_service.py` line 58): a trade is kept iff the stored
watermark is unset (`last_processed_ts is None`) or the timestamp of the trade is
strictly newer (`trade.ts > last_processed_ts`). -/
def passWm (wm : Option ℚ) (t : Trade) : Bool :=
  match wm with
  | none => true
  | some w => decide (w < t.ts)

/-- The admitted sub-batch of `run_once` (lines 55-59):
`[t for t in sorted(trades, key=lambda item: item.ts) if t.ts > last]`. -/
def admitTrades (wm : Option ℚ) (batch : List Trade) : List Trade :=
  (pySortBy Trade.ts batch).filter (passWm wm)

/-- The accumulation loop of `run_once` (lines 65-74): `total_buy` and
`total_sell` start at `Decimal("0")` and accumulate `usd_size` by direction. -/
def monitorTotals (l : List Trade) : ℚ × ℚ :=
  l.foldl (fun acc t =>
    match t.direction with
    | .buy => (acc.1 + t.usd_size, acc.2)
    | .sell => (acc.1, acc.2 + t.usd_size)) (0, 0)

/-- `max(trade.ts for trade in fresh_trades)` — only evaluated on a nonempty
list in the source (`run_once` line 79). -/
def maxTs : List Trade → ℚ
  | [] => 0
  | t :: r => r.foldl (fun m u => max m u.ts) t.ts

/-- Observable outcome of one `run_once` cycle: the persisted watermark after
the cycle, the Sell trades alerted (in loop order), and the optional summary
totals (sent when `total_buy > 0 or total_sell > 0`). -/
structure RunResult where
  wm : Option ℚ
  sellAlerts : List Trade
  summary : Option (ℚ × ℚ)
deriving DecidableEq, Repr

/-- One ingestion cycle, `TradeMonitorService.run_once` (lines 34-81):
return early on an empty fetch, filter by the watermark, alert each fresh
Sell trade, send the summary, then persist the max fresh timestamp. -/
def runOnce (wm0 : Option ℚ) (batch : List Trade) : RunResult :=
  if batch.isEmpty then ⟨wm0, [], none⟩
  else
    let fresh := admitTrades wm0 batch
    if fresh.isEmpty then ⟨wm0, [], none⟩
    else
      let tot := monitorTotals fresh
      ⟨some (maxTs fresh), fresh.filter (fun t => t.direction == Dir.sell),
        if 0 < tot.1 ∨ 0 < tot.2 then some tot else none⟩

/-! ## Exact model of IEEE-754 binary64 ("Python float") arithmetic

The push-variant report (`bot/scheduler.py`) accumulates USD volumes in
Python floats. A Python float is an IEEE-754 binary64 value; every finite
binary64 value is a rational, and each arithmetic operation rounds the exact
rational result to 53 significand bits, ties to even. We model the values
as rationals and the rounding exactly (normal range only: the USD amounts
involved never reach the overflow or subnormal thresholds). -/

/-- Floor of log2 on naturals via fuel-based structural recursion (so the
kernel can evaluate it inside `decide`); `lg2Aux n n = Nat.log2 n`. -/
def lg2Aux : ℕ → ℕ → ℕ
  | 0, _ => 0
  | fuel + 1, m => if 2 ≤ m then lg2Aux fuel (m / 2) + 1 else 0

/-- Floor of log2 of a natural number (0 for inputs below 2). -/
def lg2 (n : ℕ) : ℕ :=
  lg2Aux n n

/-- Two to an integer power, as a rational. -/
def pow2Z : ℤ → ℚ
  | Int.ofNat n => (2 : ℚ) ^ n
  | Int.negSucc n => 1 / (2 : ℚ) ^ (n + 1)

/-- Floor of log2 of a positive rational: estimate from the bit lengths of
numerator and denominator (off by at most one), then correct. -/
def floorLog2Q (q : ℚ) : ℤ :=
  let e0 : ℤ := (lg2 q.num.natAbs : ℤ) - (lg2 q.den : ℤ)
  if q < pow2Z e0 then e0 - 1
  else if pow2Z (e0 + 1) ≤ q then e0 + 1
  else e0

/-- Round a rational to the nearest integer, ties to even. -/
def roundHalfEven (q : ℚ) : ℤ :=
  let f : ℤ := Int.fdiv q.num q.den
  let r : ℚ := q - (f : ℚ)
  if r < 1 / 2 then f
  else if 1 / 2 < r then f + 1
  else if f % 2 = 0 then f else f + 1

/-- Round a rational to the nearest IEEE-754 binary64 value (normal range):
scale into `[2^52, 2^53)`, round the 53-bit significand half-to-even, and
scale back. This is what every Python float construction and arithmetic
operation does to its exact result. -/
def roundB64 (q : ℚ) : ℚ :=
  if q = 0 then 0
  else
    let a : ℚ := if q < 0 then -q else q
    let e : ℤ := floorLog2Q a
    let ulp : ℚ := pow2Z (e - 52)
    let m : ℤ := roundHalfEven (a / ulp)
    if q < 0 then -((m : ℚ) * ulp) else (m : ℚ) * ulp

/-- Python float addition `x + y`: IEEE binary64 adds exactly, then rounds. -/
def fadd (x y : ℚ) : ℚ :=
  roundB64 (x + y)

/-! ## Push-variant report (`bot/scheduler.py`, `_post_trade_report`) -/

/-- The enriched trade dict as the report reads it: `_market` (string),
`_usd` (a float, so a binary64 rational), and `_side`
(`"buy" | "sell" | "unknown"`, compared as a string in the source). -/
structure RTrade where
  market : String
  usd : ℚ
  side : String
deriving DecidableEq, Repr

/-- Per-market aggregate, `market_stats.setdefault(mkt, {...})` in
`_post_trade_report`; volumes are Python floats. -/
structure MarketStats where
  buy_count : ℕ
  sell_count : ℕ
  buy_vol : ℚ
  sell_vol : ℚ
deriving DecidableEq, Repr

/-- The fresh stats dict `{"buy_count": 0, "sell_count": 0, "buy_vol": 0.0,
"sell_vol": 0.0}`. -/
def emptyStats : MarketStats :=
  ⟨0, 0, 0, 0⟩

/-- One trade applied to the stats of its market (`scheduler.py` lines 88-96);
float accumulation is `fadd`. -/
def applyTrade (s : MarketStats) (t : RTrade) : MarketStats :=
  if t.side = "buy" then
    { s with buy_count := s.buy_count + 1, buy_vol := fadd s.buy_vol t.usd }
  else if t.side = "sell" then
    { s with sell_count := s.sell_count + 1, sell_vol := fadd s.sell_vol t.usd }
  else s

/-- `market_stats.setdefault` plus in-place update: a Python dict keeps
first-insertion key order, modelled as an association list. -/
def updMarket (t : RTrade) : List (String × MarketStats) → List (String × MarketStats)
  | [] => [(t.market, applyTrade emptyStats t)]
  | (k, s) :: rest =>
    if k = t.market then (k, applyTrade s t) :: rest
    else (k, s) :: updMarket t rest

/-- One iteration of the aggregation loop: updates the per-market dict and
the float running totals `total_buy_volume` / `total_sell_volume`. -/
def aggStep (acc : List (String × MarketStats) × ℚ × ℚ) (t : RTrade) :
    List (String × MarketStats) × ℚ × ℚ :=
  let stats := updMarket t acc.1
  if t.side = "buy" then (stats, fadd acc.2.1 t.usd, acc.2.2)
  else if t.side = "sell" then (stats, acc.2.1, fadd acc.2.2 t.usd)
  else (stats, acc.2.1, acc.2.2)

/-- The whole aggregation loop of `_post_trade_report` (lines 78-96). -/
def aggregateTrades (l : List RTrade) : List (String × MarketStats) × ℚ × ℚ :=
  l.foldl aggStep ([], 0, 0)

/-- The content of the single report message: global totals always; the
per-market breakdown section only when present in the message. -/
structure Report where
  totalBuy : ℚ
  totalSell : ℚ
  breakdown : Option (List (String × MarketStats))
deriving DecidableEq, Repr

/-- `_post_trade_report` (lines 54-128) as a function from the window
contents to the emitted message: `none` when no message is sent (empty
window), otherwise exactly one message. The per-market lines are appended
only under `if len(market_stats) > 1:`, sorted by `sorted(market_stats.items())`
(ascending by the market key string). -/
def postTradeReport (l : List RTrade) : Option Report :=
  if l.isEmpty then none
  else
    let r := aggregateTrades l
    some ⟨r.2.1, r.2.2,
      if 1 < r.1.length then some (pySortBy Prod.fst r.1) else none⟩

/-! ## Recent-trade window (`bot/redis_client.py`)

A Redis sorted set holds one entry per member string with a score. The
member written by `store_trades` is `json.dumps({**trade, "_member_id":
str(trade_id)}, sort_keys=True)`; since `json.dumps(..., sort_keys=True)`
is injective on these dicts, member-string equality is exactly equality of
the enriched dicts, so the member is modelled as the dict value itself. -/

/-- The fields of the enriched trade dict relevant to the window claims;
`trade_id` is the Lighter-assigned unique id (absent in the fallback path). -/
structure TradeDict where
  trade_id : Option ℤ
  ts : ℚ
  usd : ℚ
  market : String
deriving DecidableEq, Repr

/-- A sorted-set state: members with their scores, at most one entry per
member (zadd updates the score of an existing member). -/
abbrev Window := List (TradeDict × ℚ)

/-- Redis `ZADD key {member: score}` for a single member: update the score
if the member exists, otherwise add the entry. -/
def zaddOne (w : Window) (m : TradeDict) (score : ℚ) : Window :=
  match w with
  | [] => [(m, score)]
  | e :: rest =>
    if e.1 = m then (m, score) :: rest else e :: zaddOne rest m score

/-- `store_trades(account_id, trades)` (lines 64-91): score is
`float(trade.get("_ts") or time.time())` (Python truthiness: a zero `_ts`
falls back to the current time), member is the serialized enriched dict;
the batch mapping then goes to one ZADD (later duplicates win, same as the
sequential fold). -/
def storeTrades (w : Window) (now : ℚ) (batch : List TradeDict) : Window :=
  batch.foldl (fun acc t => zaddOne acc t (if t.ts = 0 then now else t.ts)) w

/-- `TRADE_RETENTION_SECONDS = 360`. -/
def TRADE_RETENTION_SECONDS : ℚ :=
  360

/-- `purge_old_trades` (lines 94-104): `ZREMRANGEBYSCORE key -inf cutoff`
with `cutoff = time.time() - TRADE_RETENTION_SECONDS`. Redis range bounds
are inclusive, so every entry with score `≤ cutoff` is removed; the call
returns the number of removed entries. Result: (remaining window, count). -/
def purgeOldTrades (w : Window) (cutoff : ℚ) : Window × ℕ :=
  (w.filter (fun e => decide (cutoff < e.2)),
   (w.filter (fun e => decide (e.2 ≤ cutoff))).length)

/-- `get_recent_trades` (lines 111-125): `ZRANGEBYSCORE key min_score +inf`
with `min_score = time.time() - window_seconds`; the inclusive lower bound
keeps entries with score `≥ min_score`, returned ascending by score (score
ties are returned in member order in Redis; no claim depends on tie order). -/
def getRecentTrades (w : Window) (now window_seconds : ℚ) : List (TradeDict × ℚ) :=
  pySortBy Prod.snd (w.filter (fun e => decide (now - window_seconds ≤ e.2)))

/-! ## SQLite-backed Pushover dispatcher (`bot/pushover.py`, `bot/database.py`) -/

/-- A row of the `users` table: `user_id INTEGER PRIMARY KEY`,
`pushover_key TEXT NOT NULL`, `last_notification_at REAL DEFAULT NULL`
(a Unix timestamp float or NULL). -/
structure PUser where
  user_id : ℤ
  pushover_key : String
  last_notification_at : Option ℚ
deriving DecidableEq, Repr

/-- Outcome of one `client.post` to the Pushover API in `notify_sell`. -/
inductive PushResult where
  | ok200
  | apiError
  | requestError
deriving DecidableEq, Repr

/-- The skip test of `notify_sell` (line 60):
`if last_notified and (now - last_notified) < _COOLDOWN_SECONDS: continue`.
Python truthiness makes a stored `0.0` timestamp behave like NULL. -/
def pushoverSkip (now cooldown : ℚ) (u : PUser) : Bool :=
  match u.last_notification_at with
  | none => false
  | some t => decide (t ≠ 0) && decide (now - t < cooldown)

/-- The dispatch loop of `notify_sell` (lines 57-91): every non-skipped
user gets a delivery attempt; on HTTP 200 the field
`last_notification_at` is stamped (the source stamps the wall clock read at
confirmation time, modelled by the same `now` the cycle runs at); API
errors and request exceptions are logged and the loop continues. Returns
(attempted user ids in loop order, resulting user rows). -/
def notifySell (now cooldown : ℚ) (deliver : ℤ → PushResult) :
    List PUser → List ℤ × List PUser
  | [] => ([], [])
  | u :: rest =>
    let r := notifySell now cooldown deliver rest
    if pushoverSkip now cooldown u then (r.1, u :: r.2)
    else
      match deliver u.user_id with
      | .ok200 => (u.user_id :: r.1, { u with last_notification_at := some now } :: r.2)
      | .apiError => (u.user_id :: r.1, u :: r.2)
      | .requestError => (u.user_id :: r.1, u :: r.2)

/-! ## File-variant subscription store and dispatcher
(`lighter_bot/infrastructure/persistence/subscription_store.py`,
`TradeMonitorService._send_pushover_sell_alert`) -/

/-- A row of `pushover_subscriptions`: `user_id INTEGER PRIMARY KEY`,
`pushover_user_key TEXT NOT NULL`, `last_notification_at TEXT NULL`
(an ISO-8601 UTC timestamp string; same-format ISO strings compare
chronologically, so timestamps are modelled as rationals). -/
structure SubRow where
  user_id : ℤ
  pushover_user_key : String
  last_notification_at : Option ℚ
deriving DecidableEq, Repr

/-- The row type returned by `list_eligible_subscriptions`
(`lighter_bot.domain.models.Subscription`). -/
structure Subscription where
  user_id : ℤ
  pushover_user_key : String
deriving DecidableEq, Repr

/-- The SQL eligibility predicate of `list_eligible_subscriptions`
(lines 54-66): `last_notification_at IS NULL OR last_notification_at <= ?`
with the cutoff parameter `now - cooldown`. -/
def eligibleSub (cutoff : ℚ) (r : SubRow) : Bool :=
  match r.last_notification_at with
  | none => true
  | some t => decide (t ≤ cutoff)

/-- `list_eligible_subscriptions(cooldown)`: the eligible rows projected to
`Subscription(user_id, pushover_user_key)`, in table order. -/
def listEligibleSubscriptions (now cooldown : ℚ) (table : List SubRow) : List Subscription :=
  (table.filter (eligibleSub (now - cooldown))).map
    (fun r => ⟨r.user_id, r.pushover_user_key⟩)

/-- `mark_notified(user_id, at)` (lines 68-74):
`UPDATE pushover_subscriptions SET last_notification_at = ? WHERE user_id = ?`. -/
def markNotified (uid : ℤ) (stamp : ℚ) (table : List SubRow) : List SubRow :=
  table.map (fun r =>
    if r.user_id = uid then { r with last_notification_at := some stamp } else r)

/-- The delivery loop of `_send_pushover_sell_alert` (lines 102-109): for
each eligible subscription, `send_sell_notification` returns a boolean
(`PushoverClient` catches its own errors and returns `False`); only a
`True` result stamps `last_notification_at = now`. -/
def sendLoop (now : ℚ) (send : ℤ → Bool) :
    List Subscription → List SubRow → List SubRow
  | [], table => table
  | s :: rest, table =>
    sendLoop now send rest
      (if send s.user_id then markNotified s.user_id now table else table)

/-- `_send_pushover_sell_alert` (lines 95-109): list the eligible
subscriptions once with `cooldown = now - cutoff`, then run the delivery
loop over them against the table. -/
def sendPushoverSellAlert (now cooldown : ℚ) (send : ℤ → Bool)
    (table : List SubRow) : List SubRow :=
  sendLoop now send (listEligibleSubscriptions now cooldown table) table

/-- `upsert_subscription(user_id, pushover_user_key)` (lines 32-43):
`INSERT ... VALUES(?, ?, NULL) ON CONFLICT(user_id) DO UPDATE SET
pushover_user_key = excluded.pushover_user_key` — a conflicting row keeps
its `last_notification_at`; a fresh row starts at NULL.
(`bot/database.py` `upsert_user`, lines 50-62, is the same statement with
the column default NULL supplying the fresh value.) -/
def upsertSubscription (uid : ℤ) (key : String) : List SubRow → List SubRow
  | [] => [⟨uid, key, none⟩]
  | r :: rest =>
    if r.user_id = uid then ⟨uid, key, r.last_notification_at⟩ :: rest
    else r :: upsertSubscription uid key rest

/-- `SELECT ... WHERE user_id = ?` on the primary key: first matching row. -/
def lookupSub (uid : ℤ) : List SubRow → Option SubRow
  | [] => none
  | r :: rest => if r.user_id = uid then some r else lookupSub uid rest

/-! ## Trade normalizer (`bot/lighter_ws.py`, `_handle_message` / `_resolve_side`)

Raw JSON field values are modelled by `Pval`: a number, null/absent, or a
string (carrying whether it is nonempty — Python truthiness — and what
`float()` parses it to, `none` when `float()` would raise `ValueError`). -/

/-- A raw JSON field value as Python sees it. -/
inductive Pval where
  | vnull
  | vnum (q : ℚ)
  | vstr (nonempty : Bool) (numval : Option ℚ)
deriving DecidableEq, Repr

/-- Python truthiness: `None`, `0` and `""` are falsy. -/
def truthy : Pval → Bool
  | .vnull => false
  | .vnum q => decide (q ≠ 0)
  | .vstr ne _ => ne

/-- Python `float(x)`: numbers convert, strings parse (or raise
`ValueError`, i.e. `none`), `None` raises `TypeError`. -/
def pyFloat : Pval → Option ℚ
  | .vnum q => some q
  | .vstr _ p => p
  | .vnull => none

/-- Python `==` between a JSON field value and an int: only a number can
compare equal; `None == int` and `str == int` are `False`, never errors. -/
def pvalEqInt : Pval → ℤ → Bool
  | .vnum q, a => decide (q = (a : ℚ))
  | .vnull, _ => false
  | .vstr _ _, _ => false

/-- Resolved trade side. -/
inductive Side where
  | buy
  | sell
  | unknown
deriving DecidableEq, Repr

/-- `_resolve_side(trade, account_id_int)` (lines 82-93): bid counterparty
match means buy, ask counterparty match means sell, otherwise unknown. -/
def resolveSide (bid ask : Pval) (account : ℤ) : Side :=
  if pvalEqInt bid account then .buy
  else if pvalEqInt ask account then .sell
  else .unknown

/-- Fields of a raw trade record used by the enrichment loop. -/
structure RawTrade where
  bid_account_id : Pval
  ask_account_id : Pval
  usd_amount : Pval
  timestamp : Pval
  market_id : Pval
deriving DecidableEq, Repr

/-- The normalized helpers the enrichment adds (`_handle_message` lines
226-243): `_side`, `_ts` in seconds, `_usd`, `_market` (`str(market_id)`:
`str` is total, so the raw value is carried through). -/
structure EnrichedTrade where
  side : Side
  ts : ℚ
  usd : ℚ
  market : Pval
deriving DecidableEq, Repr

/-- `ts_sec = (ts_ms / 1000.0) if ts_ms else now` (line 232): a falsy
timestamp falls back to the receive time; a truthy non-number raises
`TypeError` on the division. -/
def tsSeconds (now : ℚ) (v : Pval) : Except Unit ℚ :=
  if truthy v then
    match v with
    | .vnum q => .ok (q / 1000)
    | _ => .error ()
  else .ok now

/-- `float(trade.get("usd_amount") or 0)` (line 239): a falsy field
coerces to `0`; a truthy unparsable string raises `ValueError`. -/
def usdValue (v : Pval) : Except Unit ℚ :=
  match pyFloat (if truthy v then v else .vnum 0) with
  | some q => .ok q
  | none => .error ()

/-- Enrichment of one raw trade (`_handle_message` lines 226-243); an
exception anywhere aborts the whole message. -/
def enrichTrade (account : ℤ) (now : ℚ) (t : RawTrade) : Except Unit EnrichedTrade := do
  let side := resolveSide t.bid_account_id t.ask_account_id account
  let ts ← tsSeconds now t.timestamp
  let usd ← usdValue t.usd_amount
  return ⟨side, ts, usd, t.market_id⟩

/-- The enrichment loop over the trades of a message: the first exception
propagates out of `_handle_message`, dropping the whole batch (the caller
`_receive_loop` catches it per message). -/
def enrichBatch (account : ℤ) (now : ℚ) (l : List RawTrade) :
    Except Unit (List EnrichedTrade) :=
  l.mapM (enrichTrade account now)

/-- The watermark test as a function of a bare timestamp (`passWm` reads
only the `ts` field of the trade). -/
def passTs (wm : Option ℚ) (x : ℚ) : Bool :=
  match wm with
  | none => true
  | some w => decide (w < x)

/-! ## Lemmas about the stable sort -/

open List

theorem mem_pySortBy {α : Type _} {κ : Type _} [LinearOrder κ] (k : α → κ)
    {a : α} {l : List α} : a ∈ pySortBy k l ↔ a ∈ l :=
  List.mem_insertionSort _

theorem perm_pySortBy {α : Type _} {κ : Type _} [LinearOrder κ] (k : α → κ)
    (l : List α) : pySortBy k l ~ l :=
  List.perm_insertionSort _ l

theorem pairwise_pySortBy {α : Type _} {κ : Type _} [LinearOrder κ] (k : α → κ)
    (l : List α) : (pySortBy k l).Pairwise (fun a b => k a ≤ k b) := by
  haveI : IsTotal α (fun a b => k a ≤ k b) := ⟨fun a b => le_total (k a) (k b)⟩
  haveI : IsTrans α (fun a b => k a ≤ k b) := ⟨fun _ _ _ h1 h2 => le_trans h1 h2⟩
  exact List.sorted_insertionSort _ l

/-- Stability of the Python sort: the elements sharing any one key value
come out in their input order. -/
theorem filter_keyEq_pySortBy {α : Type _} {κ : Type _} [LinearOrder κ]
    (k : α → κ) (c : κ) (l : List α) :
    (pySortBy k l).filter (fun a => decide (k a = c)) =
      l.filter (fun a => decide (k a = c)) := by
  set p : α → Bool := fun a => decide (k a = c) with hp
  have hrfl : ∀ a, p a = true → k a = c := by
    intro a ha
    simpa [hp] using ha
  have hpair : (l.filter p).Pairwise (fun a b => k a ≤ k b) := by
    refine List.pairwise_of_forall_mem_list ?_
    intro a ha b hb
    have hak := hrfl a (List.of_mem_filter ha)
    have hbk := hrfl b (List.of_mem_filter hb)
    simp [hak, hbk]
  have hsub : l.filter p <+ pySortBy k l :=
    List.sublist_insertionSort hpair (List.filter_sublist l)
  have hsub2 : (l.filter p).filter p <+ (pySortBy k l).filter p :=
    hsub.filter p
  rw [List.filter_filter] at hsub2
  have hsame : (fun a => p a && p a) = p := by
    funext a
    cases hpa : p a <;> simp [hpa]
  rw [hsame] at hsub2
  have hlen : ((pySortBy k l).filter p).length = (l.filter p).length :=
    ((perm_pySortBy k l).filter p).length_eq
  exact (hsub2.eq_of_length hlen.symm).symm

/-! ## Lemmas about the watermark admit step (`run_once`) -/

theorem passWm_eq_passTs (wm : Option ℚ) (t : Trade) :
    passWm wm t = passTs wm t.ts := by
  cases wm <;> rfl

theorem mem_admitTrades {wm : Option ℚ} {batch : List Trade} {t : Trade} :
    t ∈ admitTrades wm batch ↔ t ∈ batch ∧ passWm wm t = true := by
  simp [admitTrades, List.mem_filter, mem_pySortBy]

theorem admitTrades_sorted (wm : Option ℚ) (batch : List Trade) :
    (admitTrades wm batch).Pairwise (fun a b => a.ts ≤ b.ts) :=
  (pairwise_pySortBy Trade.ts batch).filter _

/-- Trades with one fixed timestamp value are admitted all-or-nothing, and
in their input-batch order. -/
theorem admitTrades_filter_ts (wm : Option ℚ) (batch : List Trade) (c : ℚ) :
    (admitTrades wm batch).filter (fun t => decide (t.ts = c)) =
      if passTs wm c = true then batch.filter (fun t => decide (t.ts = c))
      else [] := by
  have hff : (admitTrades wm batch).filter (fun t => decide (t.ts = c)) =
      (pySortBy Trade.ts batch).filter
        (fun t => decide (t.ts = c) && passWm wm t) := by
    rw [admitTrades, List.filter_filter]
  by_cases hc : passTs wm c = true
  · have hcong : ∀ t ∈ pySortBy Trade.ts batch,
        (decide (t.ts = c) && passWm wm t) = decide (t.ts = c) := by
      intro t _
      by_cases hts : t.ts = c
      · rw [passWm_eq_passTs, hts, hc]
        simp [hts]
      · simp [hts]
    rw [hff, List.filter_congr hcong, filter_keyEq_pySortBy, if_pos hc]
  · have hcong : ∀ t ∈ pySortBy Trade.ts batch,
        (decide (t.ts = c) && passWm wm t) = false := by
      intro t _
      by_cases hts : t.ts = c
      · rw [passWm_eq_passTs, hts]
        cases hpc : passTs wm c
        · simp [hpc]
        · exact absurd hpc hc
      · simp [hts]
    rw [hff, List.filter_congr hcong, if_neg hc]
    simp

/-! ## Lemmas about `run_once` -/

theorem le_foldl_max (r : List Trade) (a : ℚ) :
    a ≤ r.foldl (fun m u => max m u.ts) a := by
  induction r generalizing a with
  | nil => exact le_refl a
  | cons u rest ih => exact le_trans (le_max_left a u.ts) (ih (max a u.ts))

theorem mem_le_foldl_max {t : Trade} (r : List Trade) (a : ℚ) (h : t ∈ r) :
    t.ts ≤ r.foldl (fun m u => max m u.ts) a := by
  induction r generalizing a with
  | nil => cases h
  | cons u rest ih =>
    rcases List.mem_cons.mp h with h1 | h2
    · subst h1
      exact le_trans (le_max_right a t.ts) (le_foldl_max rest _)
    · exact ih _ h2

theorem le_maxTs {t : Trade} {l : List Trade} (h : t ∈ l) : t.ts ≤ maxTs l := by
  cases l with
  | nil => cases h
  | cons u rest =>
    rcases List.mem_cons.mp h with h1 | h2
    · subst h1
      exact le_foldl_max rest _
    · exact mem_le_foldl_max rest _ h2

theorem admitTrades_after_max {wm0 : Option ℚ} {batch : List Trade}
    (hne : admitTrades wm0 batch ≠ []) :
    admitTrades (some (maxTs (admitTrades wm0 batch))) batch = [] := by
  rw [admitTrades, List.filter_eq_nil_iff]
  intro t ht
  have htb : t ∈ batch := (mem_pySortBy Trade.ts).mp ht
  have hle : t.ts ≤ maxTs (admitTrades wm0 batch) := by
    by_cases hp : passWm wm0 t = true
    · exact le_maxTs (mem_admitTrades.mpr ⟨htb, hp⟩)
    · match hwm : wm0 with
      | none => exact absurd rfl hp
      | some w =>
        have htw : t.ts ≤ w := by
          simpa [passWm, not_lt] using hp
        obtain ⟨u, hu⟩ := List.exists_mem_of_ne_nil _ hne
        have huw : w < u.ts := by
          have := (mem_admitTrades.mp hu).2
          simpa [passWm] using this
        exact le_trans htw (le_trans (le_of_lt huw) (le_maxTs hu))
  simp [passWm, not_lt, hle]

theorem runOnce_second_cycle (wm0 : Option ℚ) (batch : List Trade) :
    runOnce (runOnce wm0 batch).wm batch = ⟨(runOnce wm0 batch).wm, [], none⟩ := by
  by_cases hb : batch.isEmpty
  · simp [runOnce, hb]
  · by_cases hf : (admitTrades wm0 batch).isEmpty
    · have h1 : (runOnce wm0 batch).wm = wm0 := by simp [runOnce, hb, hf]
      rw [h1]
      simp [runOnce, hb, hf]
    · have hne : admitTrades wm0 batch ≠ [] := by
        simpa [List.isEmpty_iff] using hf
      have h1 : (runOnce wm0 batch).wm = some (maxTs (admitTrades wm0 batch)) := by
        simp [runOnce, hb, hf]
      rw [h1]
      have h2 := admitTrades_after_max hne
      simp [runOnce, hb, h2]

/-- The accumulation loop, generalized over the starting accumulator. -/
theorem monitorTotals_foldl (l : List Trade) (a b : ℚ) :
    l.foldl (fun acc t =>
      match t.direction with
      | .buy => (acc.1 + t.usd_size, acc.2)
      | .sell => (acc.1, acc.2 + t.usd_size)) (a, b) =
    (a + ((l.filter (fun t => t.direction == Dir.buy)).map Trade.usd_size).sum,
     b + ((l.filter (fun t => t.direction == Dir.sell)).map Trade.usd_size).sum) := by
  induction l generalizing a b with
  | nil => simp
  | cons t rest ih =>
    cases hd : t.direction
    · simp [List.foldl_cons, hd, ih, List.filter_cons, add_assoc]
    · simp [List.foldl_cons, hd, ih, List.filter_cons, add_assoc]

/-! ## Lemmas about the recent-trade window -/

theorem mem_zaddOne_self (w : Window) (m : TradeDict) (score : ℚ) :
    (m, score) ∈ zaddOne w m score := by
  induction w with
  | nil => simp [zaddOne]
  | cons e rest ih =>
    by_cases he : e.1 = m
    · simp [zaddOne, he]
    · simp [zaddOne, he]
      right
      exact ih

theorem score_eq_of_mem_zaddOne {w : Window} {m : TradeDict} {score s : ℚ}
    (hnd : (w.map Prod.fst).Nodup) (h : (m, s) ∈ zaddOne w m score) :
    s = score := by
  induction w with
  | nil => simpa [zaddOne] using h
  | cons e rest ih =>
    rw [List.map_cons, List.nodup_cons] at hnd
    by_cases he : e.1 = m
    · rw [zaddOne, if_pos he] at h
      rcases List.mem_cons.mp h with h1 | h2
      · exact congrArg Prod.snd h1
      · exact absurd (he ▸ List.mem_map_of_mem Prod.fst h2) hnd.1
    · rw [zaddOne, if_neg he] at h
      rcases List.mem_cons.mp h with h1 | h2
      · exact absurd (congrArg Prod.fst h1).symm he
      · exact ih hnd.2 h2

theorem mem_purgeOldTrades {w : Window} {cutoff : ℚ} {e : TradeDict × ℚ} :
    e ∈ (purgeOldTrades w cutoff).1 ↔ e ∈ w ∧ cutoff < e.2 := by
  simp [purgeOldTrades, List.mem_filter]

theorem purgeOldTrades_partition (w : Window) (cutoff : ℚ) :
    (purgeOldTrades w cutoff).1.length + (purgeOldTrades w cutoff).2 = w.length := by
  simp only [purgeOldTrades]
  induction w with
  | nil => rfl
  | cons e rest ih =>
    by_cases h : cutoff < e.2
    · have h2 : ¬ e.2 ≤ cutoff := not_le.mpr h
      simp only [List.filter_cons, decide_eq_true_eq]
      rw [if_pos h, if_neg h2]
      simp only [List.length_cons]
      omega
    · have h2 : e.2 ≤ cutoff := not_lt.mp h
      simp only [List.filter_cons, decide_eq_true_eq]
      rw [if_neg h, if_pos h2]
      simp only [List.length_cons]
      omega

theorem mem_getRecentTrades {w : Window} {now win : ℚ} {e : TradeDict × ℚ} :
    e ∈ getRecentTrades w now win ↔ e ∈ w ∧ now - win ≤ e.2 := by
  simp [getRecentTrades, mem_pySortBy, List.mem_filter]

/-! ## Lemmas about the dispatch loops -/

theorem notifySell_attempted (now cooldown : ℚ) (deliver : ℤ → PushResult)
    (users : List PUser) :
    (notifySell now cooldown deliver users).1 =
      (users.filter (fun u => !pushoverSkip now cooldown u)).map PUser.user_id := by
  induction users with
  | nil => rfl
  | cons u rest ih =>
    by_cases hs : pushoverSkip now cooldown u = true
    · simp [notifySell, hs, ih, List.filter_cons]
    · have hs2 : pushoverSkip now cooldown u = false := by
        simpa using hs
      cases hd : deliver u.user_id <;>
        simp [notifySell, hs2, hd, ih, List.filter_cons]

theorem notifySell_rows (now cooldown : ℚ) (deliver : ℤ → PushResult)
    (users : List PUser) :
    (notifySell now cooldown deliver users).2 =
      users.map (fun u =>
        if !pushoverSkip now cooldown u && (deliver u.user_id == PushResult.ok200)
        then { u with last_notification_at := some now } else u) := by
  induction users with
  | nil => rfl
  | cons u rest ih =>
    by_cases hs : pushoverSkip now cooldown u = true
    · simp [notifySell, hs, ih]
    · have hs2 : pushoverSkip now cooldown u = false := by
        simpa using hs
      cases hd : deliver u.user_id <;>
        simp [notifySell, hs2, hd, ih]

theorem sendLoop_rows (now : ℚ) (send : ℤ → Bool) (subs : List Subscription)
    (table : List SubRow) :
    sendLoop now send subs table =
      table.map (fun r =>
        if subs.any (fun s => s.user_id == r.user_id && send s.user_id)
        then { r with last_notification_at := some now } else r) := by
  induction subs generalizing table with
  | nil =>
    simp [sendLoop]
  | cons s rest ih =>
    rw [sendLoop]
    by_cases hsend : send s.user_id = true
    · rw [if_pos hsend, ih, markNotified, List.map_map]
      refine List.map_congr_left ?_
      intro r _
      simp only [Function.comp_apply]
      by_cases hid : r.user_id = s.user_id
      · rw [if_pos hid]
        have hc : (s.user_id == r.user_id && send s.user_id) = true := by
          simp [hid, hsend]
        rw [List.any_cons, hc, Bool.true_or, if_pos rfl]
        by_cases h2 : rest.any
            (fun s2 => s2.user_id == r.user_id && send s2.user_id) = true
        · simp [h2]
        · simp [h2]
      · rw [if_neg hid]
        have hc : (s.user_id == r.user_id && send s.user_id) = false := by
          simp
          intro h
          exact absurd h.symm hid
        rw [List.any_cons, hc, Bool.false_or]
    · rw [if_neg hsend, ih]
      refine List.map_congr_left ?_
      intro r _
      have hsf : send s.user_id = false := by
        simpa using hsend
      have hc : (s.user_id == r.user_id && send s.user_id) = false := by
        simp [hsf]
      rw [List.any_cons, hc, Bool.false_or]

/-! ## Lemmas about the subscription upsert -/

theorem upsertSubscription_absent {uid : ℤ} {key : String} {table : List SubRow}
    (h : lookupSub uid table = none) :
    upsertSubscription uid key table = table ++ [⟨uid, key, none⟩] := by
  induction table with
  | nil => rfl
  | cons r rest ih =>
    by_cases hr : r.user_id = uid
    · rw [lookupSub, if_pos hr] at h
      cases h
    · rw [lookupSub, if_neg hr] at h
      rw [upsertSubscription]
      rw [if_neg hr, ih h, List.cons_append]

theorem lookupSub_upsert_present {uid : ℤ} {key : String} {table : List SubRow}
    {r : SubRow} (h : lookupSub uid table = some r) :
    lookupSub uid (upsertSubscription uid key table) =
      some ⟨uid, key, r.last_notification_at⟩ := by
  induction table with
  | nil => cases h
  | cons f rest ih =>
    by_cases hf : f.user_id = uid
    · rw [lookupSub, if_pos hf] at h
      cases h
      rw [upsertSubscription, if_pos hf, lookupSub, if_pos rfl]
    · rw [lookupSub, if_neg hf] at h
      rw [upsertSubscription, if_neg hf, lookupSub, if_neg hf]
      exact ih h

theorem lookupSub_upsert_other {uid v : ℤ} {key : String} {table : List SubRow}
    (hv : v ≠ uid) :
    lookupSub v (upsertSubscription uid key table) = lookupSub v table := by
  induction table with
  | nil =>
    have hne : ¬ ((⟨uid, key, none⟩ : SubRow).user_id = v) := fun h => hv h.symm
    simp [upsertSubscription, lookupSub, hne]
  | cons f rest ih =>
    by_cases hf : f.user_id = uid
    · rw [upsertSubscription, if_pos hf, lookupSub, lookupSub]
      have huv : ¬ (uid = v) := fun h => hv h.symm
      rw [if_neg huv]
      by_cases hfv : f.user_id = v
      · exact absurd (hf ▸ hfv) huv
      · rw [if_neg hfv]
    · rw [upsertSubscription, if_neg hf, lookupSub, lookupSub]
      by_cases hfv : f.user_id = v
      · rw [if_pos hfv, if_pos hfv]
      · rw [if_neg hfv, if_neg hfv]
        exact ih

/-! ## Side-resolution lemmas -/

theorem resolveSide_buy_iff (bid ask : Pval) (account : ℤ) :
    resolveSide bid ask account = Side.buy ↔ pvalEqInt bid account = true := by
  unfold resolveSide
  by_cases hb : pvalEqInt bid account = true
  · simp [hb]
  · by_cases ha : pvalEqInt ask account = true <;> simp [hb, ha]

theorem resolveSide_sell_iff (bid ask : Pval) (account : ℤ) :
    resolveSide bid ask account = Side.sell ↔
      (pvalEqInt bid account = false ∧ pvalEqInt ask account = true) := by
  unfold resolveSide
  by_cases hb : pvalEqInt bid account = true
  · simp [hb]
  · by_cases ha : pvalEqInt ask account = true <;> simp [hb, ha]

/-! ## Claim C1 — cooldown enforcement -/

/-- C1, counterexample: a stored `last_notification_at` of `0.0` is falsy in
Python, so the `notify_sell` skip test does not fire and delivery is
attempted at `now = 1`, which lies strictly inside
`(T, T + cooldown) = (0, 7200)` — the claim forbids any notification there. -/
theorem c1_zero_timestamp_counterexample :
    (notifySell 1 7200 (fun _ => PushResult.ok200) [⟨7, "key", some 0⟩]).1 = [7] := by
  with_unfolding_all decide

/-- C1, amended: for any stored nonzero timestamp `T`, the SQLite-backed
dispatcher attempts no delivery to that subscriber at any time strictly
inside `(T, T + cooldown)`; a subscriber with NULL `last_notification_at`,
or with `T ≤ now − cooldown`, always gets a delivery attempt; and the
file-variant SQL eligibility is exactly NULL-or-`≤ now − cooldown`. The
only amendment: a stored timestamp equal to `0` is treated as
never-notified by the SQLite dispatcher (Python truthiness). -/
theorem c1_cooldown_enforcement_amended
    (now cooldown : ℚ) (deliver : ℤ → PushResult) (users : List PUser)
    (u : PUser) (hu : u ∈ users) (hnodup : (users.map PUser.user_id).Nodup) :
    (∀ T, u.last_notification_at = some T → T ≠ 0 → T < now →
      now < T + cooldown →
      u.user_id ∉ (notifySell now cooldown deliver users).1) ∧
    (u.last_notification_at = none →
      u.user_id ∈ (notifySell now cooldown deliver users).1) ∧
    (∀ T, u.last_notification_at = some T → T ≤ now - cooldown →
      u.user_id ∈ (notifySell now cooldown deliver users).1) ∧
    (∀ r : SubRow, eligibleSub (now - cooldown) r = true ↔
      (r.last_notification_at = none ∨
        ∃ T, r.last_notification_at = some T ∧ T ≤ now - cooldown)) := by
  have hatt := notifySell_attempted now cooldown deliver users
  refine ⟨?_, ?_, ?_, ?_⟩
  · intro T hT hT0 _hTnow hnowc hmem
    rw [hatt] at hmem
    obtain ⟨v, hv, hvid⟩ := List.mem_map.mp hmem
    have hvu : v = u :=
      List.inj_on_of_nodup_map hnodup (List.mem_filter.mp hv).1 hu hvid
    subst hvu
    have hskip : pushoverSkip now cooldown v = true := by
      simp only [pushoverSkip, hT, Bool.and_eq_true, decide_eq_true_eq]
      exact ⟨hT0, by linarith⟩
    have hv2 := (List.mem_filter.mp hv).2
    rw [hskip] at hv2
    cases hv2
  · intro hnone
    rw [hatt]
    refine List.mem_map.mpr ⟨u, List.mem_filter.mpr ⟨hu, ?_⟩, rfl⟩
    simp [pushoverSkip, hnone]
  · intro T hT hTle
    rw [hatt]
    refine List.mem_map.mpr ⟨u, List.mem_filter.mpr ⟨hu, ?_⟩, rfl⟩
    have hnl : ¬ (now - T < cooldown) := by linarith
    simp [pushoverSkip, hT, hnl]
  · intro r
    cases hr : r.last_notification_at with
    | none => simp [eligibleSub, hr]
    | some T => simp [eligibleSub, hr]

/-- C1 witness: with `T = 8`, `now = 10`, `cooldown = 4` the dispatcher
skips the subscriber (10 lies in `(8, 12)`). -/
theorem c1_cooldown_enforcement_amended_witness :
    (7 : ℤ) ∉ (notifySell 10 4 (fun _ => PushResult.ok200)
      [⟨7, "key", some 8⟩]).1 :=
  (c1_cooldown_enforcement_amended 10 4 (fun _ => PushResult.ok200)
      [⟨7, "key", some 8⟩] ⟨7, "key", some 8⟩ (by with_unfolding_all decide)
      (by with_unfolding_all decide)).1 8 rfl (by norm_num) (by norm_num)
      (by norm_num)

/-! ## Claim C2 — watermark admit contract -/

/-- C2, counterexample: two distinct trades with colliding timestamps are
admitted in whichever order the input batch presents them (Python `sorted`
is stable and the `Trade` model has no `externalId`), so the output order
on ties is not determined by any secondary key of the trades — the two
admitted lists hold the same trades but differ. -/
theorem c2_no_secondary_key_counterexample :
    admitTrades none [⟨100, Dir.sell, 1⟩, ⟨100, Dir.sell, 2⟩] =
      [⟨100, Dir.sell, 1⟩, ⟨100, Dir.sell, 2⟩] ∧
    admitTrades none [⟨100, Dir.sell, 2⟩, ⟨100, Dir.sell, 1⟩] =
      [⟨100, Dir.sell, 2⟩, ⟨100, Dir.sell, 1⟩] ∧
    admitTrades none [⟨100, Dir.sell, 1⟩, ⟨100, Dir.sell, 2⟩] ≠
      admitTrades none [⟨100, Dir.sell, 2⟩, ⟨100, Dir.sell, 1⟩] := by
  with_unfolding_all decide

/-- C2, amended: the admitted sub-batch contains exactly the trades whose
timestamp passes the watermark test (strictly newer, or everything when the
watermark is unset), sorted ascending by timestamp; colliding timestamps
are all admitted (none dropped) and kept in input-batch order — the stable
sort, not a secondary key, orders them. -/
theorem c2_watermark_admit_amended (wm : Option ℚ) (batch : List Trade) :
    ((admitTrades wm batch).Pairwise (fun a b => a.ts ≤ b.ts)) ∧
    (∀ t, t ∈ admitTrades wm batch ↔ t ∈ batch ∧ passWm wm t = true) ∧
    (∀ c, (admitTrades wm batch).filter (fun t => decide (t.ts = c)) =
      if passTs wm c = true then batch.filter (fun t => decide (t.ts = c))
      else []) :=
  ⟨admitTrades_sorted wm batch, fun _ => mem_admitTrades,
    admitTrades_filter_ts wm batch⟩

/-! ## Claim C3 — idempotent ingestion -/

set_option maxRecDepth 8000 in
/-- C3, counterexample: a batch holding two identical Sell records (the
`Trade` model has no external id, so "identical external id and timestamp"
can only mean identical records) produces two Sell alerts in one cycle,
not one. -/
theorem c3_duplicate_records_two_alerts_counterexample :
    (runOnce none [⟨100, Dir.sell, 500⟩, ⟨100, Dir.sell, 500⟩]).sellAlerts =
      [⟨100, Dir.sell, 500⟩, ⟨100, Dir.sell, 500⟩] := by
  with_unfolding_all decide

/-- C3, amended: running a second cycle on the same batch leaves the
persisted watermark unchanged and emits no alerts and no summary — the
cross-cycle half of the claim holds; but within a single batch each
duplicate Sell record is alerted separately (see the counterexample). -/
theorem c3_idempotent_ingestion_amended (wm0 : Option ℚ) (batch : List Trade) :
    runOnce (runOnce wm0 batch).wm batch = ⟨(runOnce wm0 batch).wm, [], none⟩ :=
  runOnce_second_cycle wm0 batch

/-! ## Claim C4 — partial-failure isolation, stamp on confirmation -/

/-- C4, confirmed: in both dispatchers the set of delivery attempts does not
depend on any delivery outcome (one subscriber failing cannot block the
rest), and a subscriber row is stamped with `now` exactly when its own
delivery attempt returned confirmed success (HTTP 200 for `notify_sell`,
`sent == True` for `_send_pushover_sell_alert`); all other rows are
unchanged. -/
theorem c4_partial_failure_isolation
    (now cooldown : ℚ) (deliver : ℤ → PushResult) (users : List PUser)
    (send : ℤ → Bool) (table : List SubRow)
    (hnd : (table.map SubRow.user_id).Nodup) :
    ((notifySell now cooldown deliver users).1 =
      (users.filter (fun u => !pushoverSkip now cooldown u)).map PUser.user_id) ∧
    ((notifySell now cooldown deliver users).2 =
      users.map (fun u =>
        if !pushoverSkip now cooldown u && (deliver u.user_id == PushResult.ok200)
        then { u with last_notification_at := some now } else u)) ∧
    (sendPushoverSellAlert now cooldown send table =
      table.map (fun r =>
        if eligibleSub (now - cooldown) r && send r.user_id
        then { r with last_notification_at := some now } else r)) := by
  refine ⟨notifySell_attempted now cooldown deliver users,
    notifySell_rows now cooldown deliver users, ?_⟩
  rw [sendPushoverSellAlert, sendLoop_rows]
  refine List.map_congr_left ?_
  intro r hr
  have hcond : ((listEligibleSubscriptions now cooldown table).any
      (fun s => s.user_id == r.user_id && send s.user_id)) =
      (eligibleSub (now - cooldown) r && send r.user_id) := by
    rw [Bool.eq_iff_iff]
    constructor
    · intro h
      obtain ⟨s, hs, hsp⟩ := List.any_eq_true.mp h
      obtain ⟨q, hq, hqs⟩ := List.mem_map.mp hs
      have hq1 : q ∈ table := (List.mem_filter.mp hq).1
      have hq2 : eligibleSub (now - cooldown) q = true := (List.mem_filter.mp hq).2
      rw [Bool.and_eq_true] at hsp
      have hsid : s.user_id = q.user_id := by
        rw [← hqs]
      have hid : q.user_id = r.user_id := by
        have hb := hsp.1
        rw [hsid] at hb
        exact beq_iff_eq.mp hb
      have hqr : q = r := List.inj_on_of_nodup_map hnd hq1 hr hid
      rw [Bool.and_eq_true]
      refine ⟨hqr ▸ hq2, ?_⟩
      have hsnd := hsp.2
      rw [hsid, hid] at hsnd
      exact hsnd
    · intro h
      rw [Bool.and_eq_true] at h
      refine List.any_eq_true.mpr ⟨⟨r.user_id, r.pushover_user_key⟩, ?_, ?_⟩
      · exact List.mem_map.mpr ⟨r, List.mem_filter.mpr ⟨hr, h.1⟩, rfl⟩
      · simp [h.2]
  rw [hcond]

/-- C4 witness: delivery to user 1 fails with a request exception, user 2
(eligible) is still attempted and stamped; user 1 keeps NULL. -/
theorem c4_partial_failure_isolation_witness :
    (notifySell 10 4
      (fun uid => if uid = 1 then PushResult.requestError else PushResult.ok200)
      [⟨1, "a", none⟩, ⟨2, "b", none⟩]).2 =
      [⟨1, "a", none⟩, ⟨2, "b", some 10⟩] := by
  have h := (c4_partial_failure_isolation 10 4
      (fun uid => if uid = 1 then PushResult.requestError else PushResult.ok200)
      [⟨1, "a", none⟩, ⟨2, "b", none⟩] (fun _ => true) []
      (by with_unfolding_all decide)).2.1
  rw [h]
  with_unfolding_all decide

/-! ## Claim C5 — window membership idempotence -/

/-- C5: the dedup key of `store_trades` is the whole serialized enriched
dict, not `(timestamp, trade_id)` as the docstring ("keyed by trade_id for
deduplication") and the claim state. Two records sharing `trade_id = 1` and
`_ts = 100` but differing in `usd` produce two window entries readable by
`get_recent_trades`; only a byte-identical record re-insert is a no-op. -/
theorem c5_dedup_key_is_full_content :
    (getRecentTrades (storeTrades [] 100
        [⟨some 1, 100, 5, "M1"⟩, ⟨some 1, 100, 6, "M1"⟩]) 200 360).length = 2 ∧
    (getRecentTrades (storeTrades [] 100
        [⟨some 1, 100, 5, "M1"⟩, ⟨some 1, 100, 5, "M1"⟩]) 200 360).length = 1 := by
  with_unfolding_all decide

/-! ## Claim C6 — purge and retention semantics -/

/-- C6, counterexample: an entry whose score equals the cutoff is removed
and counted (Redis `ZREMRANGEBYSCORE -inf cutoff` bounds are inclusive);
the claim says an entry with score equal to the cutoff is retained. -/
theorem c6_purge_boundary_counterexample :
    purgeOldTrades [(⟨some 1, 100, 5, "M1"⟩, 100)] 100 = ([], 1) := by
  with_unfolding_all decide

/-- C6, amended: the purge removes exactly the entries with score `≤ cutoff`
(the boundary entry goes too) and returns their count; a trade inserted with
score `t` is gone from every `rangeSince` read after a purge whose cutoff is
`t + ε` (wall time `t + R + ε`) and still present — and visible to
`rangeSince` reads reaching back to `t` — after a purge at cutoff `t − ε`
(wall time `t + R − ε`). -/
theorem c6_purge_retention_amended
    (w : Window) (d : TradeDict) (t ε now win cutoff : ℚ)
    (hnd : (w.map Prod.fst).Nodup) (hε : 0 < ε) :
    (∀ e, e ∈ (purgeOldTrades w cutoff).1 ↔ e ∈ w ∧ cutoff < e.2) ∧
    ((purgeOldTrades w cutoff).1.length + (purgeOldTrades w cutoff).2 = w.length) ∧
    (∀ s, (d, s) ∉ (purgeOldTrades (zaddOne w d t) (t + ε)).1) ∧
    ((d, t) ∈ (purgeOldTrades (zaddOne w d t) (t - ε)).1) ∧
    ((d, t) ∈ getRecentTrades (purgeOldTrades (zaddOne w d t) (t - ε)).1 now win ↔
      now - win ≤ t) := by
  have hself : (d, t) ∈ zaddOne w d t := mem_zaddOne_self w d t
  have hret : (d, t) ∈ (purgeOldTrades (zaddOne w d t) (t - ε)).1 := by
    refine mem_purgeOldTrades.mpr ⟨hself, ?_⟩
    show t - ε < t
    linarith
  refine ⟨fun e => mem_purgeOldTrades, purgeOldTrades_partition w cutoff,
    ?_, hret, ?_⟩
  · intro s hs
    obtain ⟨hmem, hlt⟩ := mem_purgeOldTrades.mp hs
    have hst : s = t := score_eq_of_mem_zaddOne hnd hmem
    rw [hst] at hlt
    have : t + ε < t := hlt
    linarith
  · constructor
    · intro h
      exact (mem_getRecentTrades.mp h).2
    · intro h
      exact mem_getRecentTrades.mpr ⟨hret, h⟩

/-- C6 witness: score 100 survives a purge at cutoff `100 − 1` and is seen
by a window read reaching back past 100. -/
theorem c6_purge_retention_amended_witness :
    ((⟨some 1, 100, 5, "M1"⟩ : TradeDict), (100 : ℚ)) ∈
      (purgeOldTrades (zaddOne [] ⟨some 1, 100, 5, "M1"⟩ 100) (100 - 1)).1 :=
  (c6_purge_retention_amended [] ⟨some 1, 100, 5, "M1"⟩ 100 1 460 360 99
    (by with_unfolding_all decide) (by norm_num)).2.2.2.1

/-! ## Claim C7 — exact decimal accumulation -/

set_option maxRecDepth 8000 in
/-- C7, counterexample: the scheduler report accumulates USD volumes in
binary64 floats. For the stored float amounts nearest to 0.1 and 0.2 the
reported sell total is the float sum (5404319552844596 × 2⁻⁵⁴, i.e.
1351079888211149 / 4503599627370496 ≈ 0.30000000000000004), which differs
from the exact sum of the two stored USD notionals. -/
theorem c7_float_accumulation_counterexample :
    ((postTradeReport [⟨"M1", roundB64 (1 / 10), "sell"⟩,
        ⟨"M1", roundB64 (2 / 10), "sell"⟩]).map Report.totalSell).isSome = true ∧
    ((postTradeReport [⟨"M1", roundB64 (1 / 10), "sell"⟩,
        ⟨"M1", roundB64 (2 / 10), "sell"⟩]).map Report.totalSell) ≠
      some (roundB64 (1 / 10) + roundB64 (2 / 10)) ∧
    (((postTradeReport [⟨"M1", roundB64 (1 / 10), "sell"⟩,
        ⟨"M1", roundB64 (2 / 10), "sell"⟩]).map Report.totalSell).getD 0).num =
      1351079888211149 ∧
    (((postTradeReport [⟨"M1", roundB64 (1 / 10), "sell"⟩,
        ⟨"M1", roundB64 (2 / 10), "sell"⟩]).map Report.totalSell).getD 0).den =
      4503599627370496 := by
  with_unfolding_all decide

/-- C7, amended: only the poll-variant cycle summary accumulates exactly
(`Decimal`): its totals equal the exact sums of the fresh USD sizes by
direction. The scheduler report path accumulates in binary64 floats and can
drift (see the counterexample). -/
theorem c7_exact_decimal_amended (l : List Trade) :
    monitorTotals l =
      (((l.filter (fun t => t.direction == Dir.buy)).map Trade.usd_size).sum,
       ((l.filter (fun t => t.direction == Dir.sell)).map Trade.usd_size).sum) := by
  have h := monitorTotals_foldl l 0 0
  simpa [monitorTotals] using h

/-! ## Claim C8 — report emission -/

/-- C8, counterexample: the spec scenario — window `{Buy $100, Sell $50,
Sell $25}` on the single market M1 — yields totals 100 and 75 as claimed,
but no per-market breakdown at all: the source emits the breakdown only
under `if len(market_stats) > 1`. -/
theorem c8_single_market_counterexample :
    postTradeReport [⟨"M1", 100, "buy"⟩, ⟨"M1", 50, "sell"⟩, ⟨"M1", 25, "sell"⟩] =
      some ⟨100, 75, none⟩ := by
  with_unfolding_all decide

/-- C8, amended: an empty window emits nothing and a nonempty window emits
exactly one message with the aggregated totals; the per-market breakdown is
included only when the window spans at least two markets, and then it lists
each market once, ascending by market identifier. -/
theorem c8_report_emission_amended (l : List RTrade) :
    (postTradeReport l = none ↔ l = []) ∧
    (∀ r, postTradeReport l = some r →
      r.totalBuy = (aggregateTrades l).2.1 ∧
      r.totalSell = (aggregateTrades l).2.2 ∧
      (r.breakdown = none ↔ (aggregateTrades l).1.length ≤ 1) ∧
      (∀ bd, r.breakdown = some bd →
        bd.Pairwise (fun a b => a.1 ≤ b.1) ∧ List.Perm bd (aggregateTrades l).1)) := by
  by_cases hl : l.isEmpty
  · have hln : l = [] := List.isEmpty_iff.mp hl
    refine ⟨by simp [postTradeReport, hl, hln], ?_⟩
    intro r hr
    rw [postTradeReport, if_pos hl] at hr
    cases hr
  · have hln : ¬ l = [] := by simpa [List.isEmpty_iff] using hl
    refine ⟨by simp [postTradeReport, hl, hln], ?_⟩
    intro r hr
    rw [postTradeReport, if_neg hl] at hr
    injection hr with hr
    subst hr
    refine ⟨rfl, rfl, ?_, ?_⟩
    · by_cases hb : 1 < (aggregateTrades l).1.length
      · rw [if_pos hb]
        constructor
        · intro h
          cases h
        · intro h
          omega
      · rw [if_neg hb]
        constructor
        · intro _
          omega
        · intro _
          rfl
    · intro bd hbd
      by_cases hb : 1 < (aggregateTrades l).1.length
      · rw [if_pos hb] at hbd
        injection hbd with hbd
        subst hbd
        exact ⟨pairwise_pySortBy Prod.fst _, perm_pySortBy Prod.fst _⟩
      · rw [if_neg hb] at hbd
        cases hbd

/-- C8 witness: a two-market window gets a breakdown sorted ascending by
market key. -/
theorem c8_report_emission_amended_witness :
    List.Pairwise (fun (a b : String × MarketStats) => a.1 ≤ b.1)
      [("A", ⟨1, 0, 1, 0⟩), ("B", ⟨0, 1, 0, 2⟩)] :=
  (((c8_report_emission_amended
      [⟨"A", 1, "buy"⟩, ⟨"B", 2, "sell"⟩]).2
      ⟨1, 2, some [("A", ⟨1, 0, 1, 0⟩), ("B", ⟨0, 1, 0, 2⟩)]⟩
      (by with_unfolding_all decide)).2.2.2
      [("A", ⟨1, 0, 1, 0⟩), ("B", ⟨0, 1, 0, 2⟩)] rfl).1

/-! ## Claim C9 — normalizer totality -/

/-- C9, counterexample: a record whose `usd_amount` is a truthy non-numeric
string makes `float(...)` raise, so enrichment of that record — and of the
whole message batch containing it, good records included — errors instead
of coercing to zero. -/
theorem c9_malformed_numeric_counterexample :
    enrichTrade 714638 0
      ⟨Pval.vnum 714638, Pval.vnum 2, Pval.vstr true none, Pval.vnum 1000,
        Pval.vnum 1⟩ = Except.error () ∧
    enrichBatch 714638 0
      [⟨Pval.vnum 714638, Pval.vnum 2, Pval.vnum 500, Pval.vnum 1000, Pval.vnum 1⟩,
       ⟨Pval.vnum 714638, Pval.vnum 2, Pval.vstr true none, Pval.vnum 1000,
         Pval.vnum 1⟩] = Except.error () :=
  ⟨by with_unfolding_all rfl, by with_unfolding_all rfl⟩

/-- C9, amended: enrichment succeeds whenever the numeric fields are falsy
or numbers — a falsy `usd_amount` coerces to 0, a falsy `timestamp` falls
back to receive time, a numeric timestamp is converted from milliseconds —
and side resolution is Buy iff the bid counterparty equals the tracked
account, Sell iff the ask does (and the bid does not). Truthy non-numeric
fields raise and drop the whole batch (see the counterexample). -/
theorem c9_normalizer_amended (account : ℤ) (now : ℚ) (t : RawTrade)
    (husd : truthy t.usd_amount = false ∨ ∃ q, t.usd_amount = Pval.vnum q)
    (hts : truthy t.timestamp = false ∨ ∃ q, t.timestamp = Pval.vnum q) :
    ∃ n, enrichTrade account now t = Except.ok n ∧
      n.side = resolveSide t.bid_account_id t.ask_account_id account ∧
      (truthy t.usd_amount = false → n.usd = 0) ∧
      (∀ q, t.usd_amount = Pval.vnum q → truthy t.usd_amount = true → n.usd = q) ∧
      (truthy t.timestamp = false → n.ts = now) ∧
      (∀ q, t.timestamp = Pval.vnum q → truthy t.timestamp = true →
        n.ts = q / 1000) ∧
      (n.side = Side.buy ↔ pvalEqInt t.bid_account_id account = true) ∧
      (n.side = Side.sell ↔ (pvalEqInt t.bid_account_id account = false ∧
        pvalEqInt t.ask_account_id account = true)) := by
  have hTS : ∃ tsv, tsSeconds now t.timestamp = Except.ok tsv ∧
      (truthy t.timestamp = false → tsv = now) ∧
      (∀ q, t.timestamp = Pval.vnum q → truthy t.timestamp = true →
        tsv = q / 1000) := by
    by_cases htr : truthy t.timestamp = true
    · rcases hts with h | ⟨q, hq⟩
      · rw [h] at htr
        cases htr
      · refine ⟨q / 1000, ?_, ?_, ?_⟩
        · rw [hq] at htr ⊢
          simp [tsSeconds, htr]
        · intro hf
          rw [hf] at htr
          cases htr
        · intro q2 hq2 _
          rw [hq] at hq2
          cases hq2
          rfl
    · have hfr : truthy t.timestamp = false := by
        simpa using htr
      refine ⟨now, ?_, fun _ => rfl, ?_⟩
      · simp [tsSeconds, hfr]
      · intro q _ htr2
        rw [htr2] at hfr
        cases hfr
  have hUSD : ∃ uv, usdValue t.usd_amount = Except.ok uv ∧
      (truthy t.usd_amount = false → uv = 0) ∧
      (∀ q, t.usd_amount = Pval.vnum q → truthy t.usd_amount = true → uv = q) := by
    by_cases htr : truthy t.usd_amount = true
    · rcases husd with h | ⟨q, hq⟩
      · rw [h] at htr
        cases htr
      · refine ⟨q, ?_, ?_, ?_⟩
        · rw [hq] at htr ⊢
          simp [usdValue, htr, pyFloat]
        · intro hf
          rw [hf] at htr
          cases htr
        · intro q2 hq2 _
          rw [hq] at hq2
          cases hq2
          rfl
    · have hfr : truthy t.usd_amount = false := by
        simpa using htr
      refine ⟨0, ?_, fun _ => rfl, ?_⟩
      · simp [usdValue, hfr, pyFloat]
      · intro q _ htr2
        rw [htr2] at hfr
        cases hfr
  obtain ⟨tsv, hts1, hts2, hts3⟩ := hTS
  obtain ⟨uv, hu1, hu2, hu3⟩ := hUSD
  refine ⟨⟨resolveSide t.bid_account_id t.ask_account_id account, tsv, uv,
    t.market_id⟩, ?_, rfl, hu2, hu3, hts2, hts3,
    resolveSide_buy_iff t.bid_account_id t.ask_account_id account,
    resolveSide_sell_iff t.bid_account_id t.ask_account_id account⟩
  simp only [enrichTrade, hts1, hu1]
  rfl

/-- C9 witness: a record with a NULL `usd_amount` and a numeric millisecond
timestamp enriches successfully. -/
theorem c9_normalizer_amended_witness :
    ∃ n, enrichTrade 714638 5
      ⟨Pval.vnum 1, Pval.vnum 714638, Pval.vnull, Pval.vnum 2000, Pval.vnum 7⟩ =
      Except.ok n := by
  obtain ⟨n, hn, -⟩ := c9_normalizer_amended 714638 5
    ⟨Pval.vnum 1, Pval.vnum 714638, Pval.vnull, Pval.vnum 2000, Pval.vnum 7⟩
    (Or.inl rfl) (Or.inr ⟨2000, rfl⟩)
  exact ⟨n, hn⟩

/-! ## Claim C10 — re-registration preserves cooldown state -/

/-- C10, confirmed: upserting a subscription for an existing `user_id`
replaces only the push key and keeps `last_notification_at` exactly as it
was, so re-registering cannot reset an active cooldown; every other row is
untouched; only a previously absent `user_id` gets a fresh row with NULL
`last_notification_at`. -/
theorem c10_upsert_preserves_cooldown (uid : ℤ) (key : String)
    (table : List SubRow) :
    (lookupSub uid table = none →
      upsertSubscription uid key table = table ++ [⟨uid, key, none⟩]) ∧
    (∀ r, lookupSub uid table = some r →
      lookupSub uid (upsertSubscription uid key table) =
        some ⟨uid, key, r.last_notification_at⟩) ∧
    (∀ v, v ≠ uid →
      lookupSub v (upsertSubscription uid key table) = lookupSub v table) :=
  ⟨fun h => upsertSubscription_absent h,
   fun _ h => lookupSub_upsert_present h,
   fun _ hv => lookupSub_upsert_other hv⟩

/-- C10 witness: re-registering user 5 with a new key keeps the stored
`last_notification_at = 42`. -/
theorem c10_upsert_preserves_cooldown_witness :
    lookupSub 5 (upsertSubscription 5 "newkey" [⟨5, "oldkey", some 42⟩]) =
      some ⟨5, "newkey", some 42⟩ :=
  (c10_upsert_preserves_cooldown 5 "newkey" [⟨5, "oldkey", some 42⟩]).2.1
    ⟨5, "oldkey", some 42⟩ (by with_unfolding_all decide)

end LighterBot
